import Mathlib

/-!
# DHHookCommon.h

A verification development for `include/DHHookCommon.h`: the selector transform
`__getsel` (a C function over NUL-terminated byte strings, with its buffer in
automatic storage) and the hook macros (preprocessor replacement lists,
expanded by a model of the C preprocessor).
-/

set_option autoImplicit false

namespace DHHookCommon

/-! ## Part A. C strings and `__getsel` -/

/-- The ways in which running `__getsel` can leave defined behaviour. -/
inductive Fault
  /-- `strlen` ran off the end of the object without meeting a NUL. -/
  | unterminated
  /-- `char selector[len]` was evaluated with `len ≤ 0`. -/
  | vlaSize
  /-- `char selector[len]` asks for more automatic storage than the call has left. -/
  | stackOverflow
  /-- `in[i]` was read outside the object `in` points to. -/
  | readOutOfBounds
  /-- `selector[i]` was written outside the buffer. -/
  | writeOutOfBounds
  /-- `sel_getUid` read a byte of `selector` that was never written. -/
  | indeterminate
  /-- `sel_getUid` ran off the end of `selector` without meeting a NUL. -/
  | selectorUnterminated
  /-- The loop was not finished within the iterations allotted to it. -/
  | fuel
  deriving DecidableEq, Repr

deriving instance DecidableEq for Except

/-- The code of `'$'`. -/
abbrev dollar : Nat := 36

/-- The code of `':'`. -/
abbrev colon : Nat := 58

/-- Library `strlen`: the number of bytes before the first NUL of the object
(a list of `char` codes, starting at the pointer). -/
def strlen : List Nat → Except Fault Nat
  | [] => .error .unterminated
  | c :: cs => if c = 0 then .ok 0 else
      match strlen cs with
      | .ok n => .ok (n + 1)
      | .error e => .error e

/-- Conversion of a `size_t` value to a 32-bit `int` (reduction modulo `2^32`
into the range `-2^31 .. 2^31 - 1`). -/
def toInt (n : Nat) : Int := ((n : Int) + 2147483648) % 4294967296 - 2147483648

/-- The local state of `__getsel` while its loop runs, with a record of the
accesses made so far. -/
structure Frame where
  /-- The variable `int len`. -/
  len : Int
  /-- The buffer `char selector[len]`; `none` is a byte not yet written. -/
  selector : List (Option Nat)
  /-- The loop variable `i` (it never exceeds `len`, so `i++` cannot overflow). -/
  i : Nat
  /-- The indices at which `in` was read, oldest first. -/
  reads : List Nat
  /-- The indices at which `selector` was written, oldest first. -/
  writes : List Nat
  /-- The number of times the loop body has run. -/
  iterations : Nat
  deriving DecidableEq, Repr

/-- One run of the loop body followed by `i++`:
`selector[i] = (in[i] == '$' ? ':' : in[i]);`. -/
def loopBody (in_ : List Nat) (f : Frame) : Except Fault Frame :=
  match in_[f.i]? with
  | none => .error .readOutOfBounds
  | some c =>
    if f.i < f.selector.length then
      .ok { f with
        selector := f.selector.set f.i (some (if c = dollar then colon else c))
        i := f.i + 1
        reads := f.reads ++ [f.i]
        writes := f.writes ++ [f.i]
        iterations := f.iterations + 1 }
    else .error .writeOutOfBounds

/-- The loop `for (...; i < len; i++) body`, run for at most the given number
of iterations. -/
def forLoop (in_ : List Nat) : Nat → Frame → Except Fault Frame
  | 0, f => if (f.i : Int) < f.len then .error .fuel else .ok f
  | fuel + 1, f =>
    if (f.i : Int) < f.len then
      match loopBody in_ f with
      | .ok f' => forLoop in_ fuel f'
      | .error e => .error e
    else .ok f

/-- The body of `__getsel` up to the call of `sel_getUid`: the frame when the
loop is left. The buffer `selector` is an array of automatic storage whose size
is the length of the input plus one; `stack` is the number of bytes of
automatic storage the call has left for it. -/
def getselFrame (stack : Nat) (in_ : List Nat) : Except Fault Frame :=
  match strlen in_ with
  | .error e => .error e
  | .ok n =>
    let len : Int := toInt (n + 1)
    if len ≤ 0 then .error .vlaSize
    else if stack < len.toNat then .error .stackOverflow
    else forLoop in_ len.toNat
      { len := len, selector := List.replicate len.toNat none, i := 0,
        reads := [], writes := [], iterations := 0 }

/-- What a callee that takes a C string reads from a buffer: the bytes before
the first NUL. -/
def readCString : List (Option Nat) → Except Fault (List Nat)
  | [] => .error .selectorUnterminated
  | none :: _ => .error .indeterminate
  | some c :: cs => if c = 0 then .ok [] else
      match readCString cs with
      | .ok s => .ok (c :: s)
      | .error e => .error e

/-- The string `__getsel` builds in `selector` and passes to `sel_getUid`. -/
def selectorString (stack : Nat) (in_ : List Nat) : Except Fault (List Nat) :=
  match getselFrame stack in_ with
  | .ok f => readCString f.selector
  | .error e => .error e

/-- The function `__getsel`, given the automatic storage left for its buffer
and the runtime's `sel_getUid` as a function of the contents of the string it
is passed. -/
def __getsel {SEL : Type} (stack : Nat) (sel_getUid : List Nat → SEL) (in_ : List Nat) :
    Except Fault SEL :=
  match selectorString stack in_ with
  | .ok s => .ok (sel_getUid s)
  | .error e => .error e

/-- The codes of the characters of an ASCII literal. -/
def ascii (s : String) : List Nat := s.data.map Char.toNat

/-- A C string: its characters, none of which is NUL. -/
structure CStr where
  /-- The characters before the terminator. -/
  chars : List Nat
  /-- No character is the terminator. -/
  noNul : 0 ∉ chars

/-- An object holding the string: its characters, the terminating NUL, and
whatever bytes follow it in memory. -/
def CStr.object (S : CStr) (rest : List Nat) : List Nat := S.chars ++ 0 :: rest

/-- An ASCII letter. -/
def isLetter (c : Nat) : Prop := (65 ≤ c ∧ c ≤ 90) ∨ (97 ≤ c ∧ c ≤ 122)

/-- An ASCII digit. -/
def isDigit (c : Nat) : Prop := 48 ≤ c ∧ c ≤ 57

instance (c : Nat) : Decidable (isLetter c) := by unfold isLetter; infer_instance
instance (c : Nat) : Decidable (isDigit c) := by unfold isDigit; infer_instance

/-- The string of 2147483647 copies of the character with code `c + 1`. -/
def longString (c : Nat) : CStr :=
  { chars := List.replicate 2147483647 (c + 1)
    noNul := fun h => absurd (List.eq_of_mem_replicate h) (by omega) }

/-- The string of 9000000 copies of the character with code `c + 1`. -/
def bigString (c : Nat) : CStr :=
  { chars := List.replicate 9000000 (c + 1)
    noNul := fun h => absurd (List.eq_of_mem_replicate h) (by omega) }

/-- A stack of 8 MiB, all of it left for the buffer. -/
def defaultStack : Nat := 8388608

/-- A stack of 4 GiB, all of it left for the buffer. -/
def hugeStack : Nat := 4294967296

/-- The frame of `__getsel` after `k` iterations of its loop, for a buffer of
`N` bytes. -/
def frameAt (in_ : List Nat) (N k : Nat) : Frame :=
  { len := (N : Int)
    selector := (in_.take k).map (fun c => some (if c = dollar then colon else c))
      ++ List.replicate (N - k) none
    i := k
    reads := List.range k
    writes := List.range k
    iterations := k }

/-! ## Part B. The macros -/

/-- A preprocessing token of an expansion. -/
inductive Tok
  /-- An identifier or punctuator, by its spelling. -/
  | sym (s : String)
  /-- A string literal, by its contents. -/
  | str (s : String)
  deriving DecidableEq, Repr

/-- The spelling of a token in the source text. -/
def Tok.spelling : Tok → String
  | .sym s => s
  | .str s => String.singleton (Char.ofNat 34) ++ s ++ String.singleton (Char.ofNat 34)

/-- The spelling of a token sequence written without white space. -/
def spell : List Tok → String
  | [] => ""
  | t :: ts => t.spelling ++ spell ts

/-- A `#define` line. -/
structure Define where
  /-- The name being defined. -/
  name : String
  /-- The parameter names of a function-like definition, `none` for an object-like one. -/
  params : Option (List String)
  /-- Whether the last parameter is a named variable argument (`args...`). -/
  variadic : Bool
  /-- The replacement list: its preprocessing tokens in source order. -/
  body : List String
  deriving DecidableEq, Repr

/-- `#define HOOK(class, name, type, args...)`. -/
def HOOK : Define :=
  { name := "HOOK", params := some ["class", "name", "type", "args"], variadic := true,
    body := ["static", "type", "(", "*", "_", "##", "class", "##", "$", "##", "name", ")",
      "(", "class", "*", "self", ",", "SEL", "sel", ",", "##", "args", ")", ";",
      "static", "type", "$", "##", "class", "##", "$", "##", "name",
      "(", "class", "*", "self", ",", "SEL", "sel", ",", "##", "args", ")"] }

/-- `#define CALL_ORIG(class, name, args...)`. -/
def CALL_ORIG : Define :=
  { name := "CALL_ORIG", params := some ["class", "name", "args"], variadic := true,
    body := ["_", "##", "class", "##", "$", "##", "name",
      "(", "self", ",", "sel", ",", "##", "args", ")"] }

/-- `#define GET_CLASS(class)`. -/
def GET_CLASS : Define :=
  { name := "GET_CLASS", params := some ["class"], variadic := false,
    body := ["Class", "$", "##", "class", "=", "objc_getClass", "(", "#", "class", ")"] }

/-- `#define HOOK_MESSAGE(class, sel)`. -/
def HOOK_MESSAGE : Define :=
  { name := "HOOK_MESSAGE", params := some ["class", "sel"], variadic := false,
    body := ["_", "##", "class", "##", "$", "##", "sel", "=", "MSHookMessage", "(",
      "$", "##", "class", ",", "@", "selector", "(", "sel", ")", ",",
      "&", "$", "##", "class", "##", "$", "##", "sel", ")"] }

/-- `#define HOOK_MESSAGE_AUTO(class, replace)`. -/
def HOOK_MESSAGE_AUTO : Define :=
  { name := "HOOK_MESSAGE_AUTO", params := some ["class", "replace"], variadic := false,
    body := ["_", "##", "class", "##", "$", "##", "replace", "=", "MSHookMessage", "(",
      "$", "##", "class", ",", "__getsel", "(", "#", "replace", ")", ",",
      "&", "$", "##", "class", "##", "$", "##", "replace", ")"] }

/-- `#define HOOK_MESSAGE_REPLACEMENT(class, sel, replace)`. -/
def HOOK_MESSAGE_REPLACEMENT : Define :=
  { name := "HOOK_MESSAGE_REPLACEMENT", params := some ["class", "sel", "replace"],
    variadic := false,
    body := ["_", "##", "class", "##", "$", "##", "replace", "=", "MSHookMessage", "(",
      "$", "##", "class", ",", "@", "selector", "(", "sel", ")", ",",
      "&", "$", "##", "class", "##", "$", "##", "replace", ")"] }

/-- `#define HOOK_MESSAGE_ARGS HOOK_MESSAGE_WITH_SINGLE_ARG`. -/
def HOOK_MESSAGE_ARGS : Define :=
  { name := "HOOK_MESSAGE_ARGS", params := none, variadic := false,
    body := ["HOOK_MESSAGE_WITH_SINGLE_ARG"] }

/-- `#define HOOK_MESSAGE_EX HOOK_MESSAGE_AUTO`. -/
def HOOK_MESSAGE_EX : Define :=
  { name := "HOOK_MESSAGE_EX", params := none, variadic := false,
    body := ["HOOK_MESSAGE_AUTO"] }

/-- `#define HOOK_MESSAGE_F HOOK_MESSAGE_REPLACEMENT`. -/
def HOOK_MESSAGE_F : Define :=
  { name := "HOOK_MESSAGE_F", params := none, variadic := false,
    body := ["HOOK_MESSAGE_REPLACEMENT"] }

/-- `#define DHGetClass GET_CLASS`. -/
def DHGetClass : Define :=
  { name := "DHGetClass", params := none, variadic := false, body := ["GET_CLASS"] }

/-- `#define DHHookMessageWithReplacement HOOK_MESSAGE_REPLACEMENT`. -/
def DHHookMessageWithReplacement : Define :=
  { name := "DHHookMessageWithReplacement", params := none, variadic := false,
    body := ["HOOK_MESSAGE_REPLACEMENT"] }

/-- `#define DHHookMessageWithAutoRename HOOK_MESSAGE_AUTO`. -/
def DHHookMessageWithAutoRename : Define :=
  { name := "DHHookMessageWithAutoRename", params := none, variadic := false,
    body := ["HOOK_MESSAGE_AUTO"] }

/-- Every `#define` of the header, in source order. -/
def header : List Define :=
  [HOOK, CALL_ORIG, GET_CLASS, HOOK_MESSAGE, HOOK_MESSAGE_AUTO, HOOK_MESSAGE_REPLACEMENT,
    HOOK_MESSAGE_ARGS, HOOK_MESSAGE_EX, HOOK_MESSAGE_F,
    DHGetClass, DHHookMessageWithReplacement, DHHookMessageWithAutoRename]

/-- A token of a replacement list, read by the preprocessor. -/
inductive Piece
  /-- A token that is copied as it stands. -/
  | tok (t : String)
  /-- An occurrence of the parameter with this index. -/
  | param (k : Nat)
  /-- The operator `#` applied to the parameter with this index. -/
  | stringize (k : Nat)
  /-- The operator `##`. -/
  | paste
  deriving DecidableEq, Repr

/-- The index of a name among the parameters. -/
def paramIndex : List String → String → Option Nat
  | [], _ => none
  | p :: ps, t => if p = t then some 0 else (paramIndex ps t).map (· + 1)

/-- The replacement list of a function-like definition as the preprocessor
reads it: parameters, `#` with its operand, and `##` are told apart from
ordinary tokens. -/
def pieces (params : List String) : List String → List Piece
  | [] => []
  | t :: rest =>
    if t = "##" then .paste :: pieces params rest
    else if t = "#" then
      match rest with
      | [] => [.tok t]
      | p :: rest' =>
        (match paramIndex params p with
          | some k => .stringize k
          | none => .tok p) :: pieces params rest'
    else
      (match paramIndex params t with
        | some k => .param k
        | none => .tok t) :: pieces params rest

/-- The definition the header gives a name, if any. -/
def lookup (h : List Define) (n : String) : Option Define :=
  h.find? (fun d => d.name = n)

/-- A token in the course of macro replacement: the token and the names of
the macros it may no longer be replaced by, because it came out of their
replacement. -/
structure PTok where
  /-- The token. -/
  tok : Tok
  /-- The macros that are not replaced at this token. -/
  hide : List String
  deriving DecidableEq, Repr

/-- A token of the source text. -/
def PTok.fresh (t : Tok) : PTok := { tok := t, hide := [] }

/-- The tokens an operand stands for, given the arguments of the invocation.
A parameter that is an operand of `##` stands for its argument as written; any
other occurrence of a parameter stands for the argument after it has been
macro-replaced on its own (`pre`); `#` yields the string literal that spells
the argument as written. -/
def operand (pre : List PTok → Option (List PTok)) (raw : List (List PTok))
    (pasted : Bool) : Piece → Option (List PTok)
  | .tok t => some [PTok.fresh (.sym t)]
  | .param k => if pasted then some (raw.getD k []) else pre (raw.getD k [])
  | .stringize k => some [PTok.fresh (.str (spell ((raw.getD k []).map PTok.tok)))]
  | .paste => some []

/-- The operator `##` between two operands: the last token of the left one and
the first token of the right one become one token; an empty operand is a
placemarker. -/
def glue (l r : List PTok) : List PTok :=
  match l.getLast?, r with
  | some a, b :: r' =>
    l.dropLast ++
      { tok := .sym (a.tok.spelling ++ b.tok.spelling),
        hide := a.hide.filter (fun n => n ∈ b.hide) } :: r'
  | _, _ => l ++ r

/-- Substitution and pasting over a replacement list, left to right. `cur`
holds the tokens of the operand being built, `va` the index of the variable
argument. For `, ## args` with the variable argument the comma is dropped when
the argument is empty and kept, without pasting, when it is not. The result is
`none` when the replacement of an argument is. -/
def expandPieces (pre : List PTok → Option (List PTok)) (va : Option Nat)
    (raw : List (List PTok)) : List Piece → List PTok → Option (List PTok)
  | [], cur => some cur
  | .paste :: p :: rest, cur =>
    match operand pre raw true p with
    | none => none
    | some r =>
      if cur = [PTok.fresh (.sym ",")] ∧ (∃ k, va = some k ∧ p = .param k) then
        expandPieces pre va raw rest (if r = [] then [] else cur ++ r)
      else expandPieces pre va raw rest (glue cur r)
  | p :: rest, cur =>
    match operand pre raw (rest.head? = some .paste) p with
    | none => none
    | some r => (expandPieces pre va raw rest r).map (cur ++ ·)

/-- The replacement of an invocation: the replacement list with the arguments
substituted and the pastes done, every token of it hidden from the macros in
`hs`. -/
def substitute (pre : List PTok → Option (List PTok)) (d : Define)
    (raw : List (List PTok)) (hs : List String) : Option (List PTok) :=
  let ps := d.params.getD []
  (expandPieces pre (if d.variadic then some (ps.length - 1) else none) raw
      (pieces ps d.body) []).map
    (List.map (fun t => { tok := t.tok, hide := hs ++ t.hide }))

/-- The arguments of an invocation, read from the tokens after its `(`: they
are separated by the commas outside inner parentheses and end at the matching
`)`. The result holds the arguments, the hide set of the `)` and the tokens
after it. -/
def collectArgs : Nat → List PTok → List PTok → List (List PTok) →
    Option (List (List PTok) × List String × List PTok)
  | _, [], _, _ => none
  | depth, t :: rest, cur, done =>
    if t.tok = .sym "(" then collectArgs (depth + 1) rest (cur ++ [t]) done
    else if t.tok = .sym ")" then
      if depth = 0 then some (done ++ [cur], t.hide, rest)
      else collectArgs (depth - 1) rest (cur ++ [t]) done
    else if t.tok = .sym "," ∧ depth = 0 then collectArgs 0 rest [] (done ++ [cur])
    else collectArgs depth rest (cur ++ [t]) done

/-- Arguments joined again by their commas. -/
def joinArgs : List (List PTok) → List PTok
  | [] => []
  | [a] => a
  | a :: b :: rest => a ++ PTok.fresh (.sym ",") :: joinArgs (b :: rest)

/-- The arguments of an invocation matched to the parameters: a variable
argument takes all the arguments left, with their commas, and may be left
out. -/
def bindArgs (d : Define) (actuals : List (List PTok)) : Option (List (List PTok)) :=
  let n := (d.params.getD []).length
  if d.variadic then
    if n - 1 ≤ actuals.length then
      some (actuals.take (n - 1) ++ [joinArgs (actuals.drop (n - 1))])
    else none
  else if actuals.length = n then some actuals
  else if n = 0 ∧ actuals = [[]] then some []
  else none

/-- Macro replacement of a token sequence under the definitions `env`, in at
most the given number of steps: a name that is defined, and not hidden at the
token, is replaced (a function-like one only when a `(` follows), its
arguments are replaced on their own before they are substituted, and the
replacement is scanned again together with the tokens that follow. The result
is `none` when the steps run out or an invocation is ill-formed. -/
def scan (env : List Define) : Nat → List PTok → Option (List PTok)
  | _, [] => some []
  | 0, _ :: _ => none
  | fuel + 1, t :: rest =>
    match t.tok with
    | .str _ => (scan env fuel rest).map (t :: ·)
    | .sym name =>
      if name ∈ t.hide then (scan env fuel rest).map (t :: ·)
      else
        match lookup env name with
        | none => (scan env fuel rest).map (t :: ·)
        | some d =>
          match d.params with
          | none =>
            match substitute (fun a => scan env fuel a) d [] (name :: t.hide) with
            | none => none
            | some r => scan env fuel (r ++ rest)
          | some _ =>
            match rest with
            | [] => some [t]
            | p :: rest' =>
              if p.tok = .sym "(" then
                match collectArgs 0 rest' [] [] with
                | none => none
                | some (actuals, closeHide, rest'') =>
                  match bindArgs d actuals with
                  | none => none
                  | some raw =>
                    match substitute (fun a => scan env fuel a) d raw
                        (name :: t.hide.filter (fun n => n ∈ closeHide)) with
                    | none => none
                    | some r => scan env fuel (r ++ rest'')
              else (scan env fuel rest).map (t :: ·)

/-- The number of steps allowed for the replacement of an argument. -/
def scanFuel (ts : List PTok) : Nat := 64 * (ts.length + 1)

/-- The replacement of an argument on its own, as if it were the rest of the
file. -/
def prescan (env : List Define) (ts : List PTok) : Option (List PTok) :=
  scan env (scanFuel ts) ts

/-- The replacement of an invocation of a definition with the given arguments
(none for an object-like definition), with the definitions `env` in scope for
its arguments: the replacement list after substitution and pasting, before it
is scanned again. -/
def expand (env : List Define) (d : Define) (args : List (List Tok)) : Option (List Tok) :=
  (substitute (prescan env) d (args.map (List.map PTok.fresh)) []).map (List.map PTok.tok)

/-- The complete macro replacement of a piece of source text under the
definitions `env`. -/
def preprocess (env : List Define) (ts : List Tok) : Option (List Tok) :=
  (prescan env (ts.map PTok.fresh)).map (List.map PTok.tok)

/-! ### Reading the expansions -/

/-- A character of an identifier, as the compiler this header is written for
takes them: an ASCII letter, a digit, `_` or `$`. -/
def isIdentChar (ch : Char) : Prop :=
  isLetter ch.toNat ∨ isDigit ch.toNat ∨ ch = '_' ∨ ch = '$'

instance (ch : Char) : Decidable (isIdentChar ch) := by unfold isIdentChar; infer_instance

/-- An identifier does not begin with a digit, and is not empty. -/
def startsIdentifier : List Char → Bool
  | [] => false
  | ch :: _ => !decide (isDigit ch.toNat)

/-- An identifier token: a class name, or a method name with `$` for `:`. -/
def IsIdentifier (s : String) : Prop :=
  startsIdentifier s.data = true ∧ ∀ ch ∈ s.data, isIdentChar ch

instance (s : String) : Decidable (IsIdentifier s) := by unfold IsIdentifier; infer_instance

/-- The selector argument of an install statement. -/
inductive SelArg
  /-- The expression `@selector(name)`. -/
  | atSelector (name : String)
  /-- The call `__getsel("lit")`. -/
  | getsel (lit : String)
  deriving DecidableEq, Repr

/-- An install statement `dest = MSHookMessage(cls, selector, &repl)`. -/
structure Install where
  /-- The variable the result is stored in. -/
  dest : Tok
  /-- The variable passed as the target class. -/
  cls : Tok
  /-- The selector argument. -/
  selector : SelArg
  /-- The function whose address is passed. -/
  repl : Tok
  deriving DecidableEq, Repr

/-- The selector argument and the replacement of an install statement, read
from the tokens after `dest = MSHookMessage(cls,`. -/
def parseInstallArgs (dest cls : Tok) : List Tok → Option Install
  | [.sym "__getsel", .sym "(", .str lit, .sym ")", .sym ",", .sym "&", repl, .sym ")"] =>
    some { dest := dest, cls := cls, selector := .getsel lit, repl := repl }
  | .sym "@" :: .sym "selector" :: .sym "(" :: rest =>
    match rest.reverse with
    | .sym ")" :: repl :: .sym "&" :: .sym "," :: .sym ")" :: nameRev =>
      some { dest := dest, cls := cls, selector := .atSelector (spell nameRev.reverse),
             repl := repl }
    | _ => none
  | _ => none

/-- An install statement read from a token sequence. -/
def parseInstall : List Tok → Option Install
  | dest :: .sym "=" :: .sym "MSHookMessage" :: .sym "(" :: cls :: .sym "," :: rest =>
    parseInstallArgs dest cls rest
  | _ => none

/-- The name declared by the first pointer declarator `(* name` of a token
sequence. -/
def declaredPointer : List Tok → Option Tok
  | [] => none
  | t :: rest =>
    if t = .sym "(" ∧ rest.head? = some (.sym "*") then rest[1]?
    else declaredPointer rest

/-- The name declared by the first function declarator `name (` of a token
sequence. -/
def declaredFunction : List Tok → Option Tok
  | [] => none
  | t :: rest =>
    if rest.head? = some (.sym "(") then some t
    else declaredFunction rest

/-- The tokens after the first `;`. -/
def afterSemicolon : List Tok → List Tok
  | [] => []
  | t :: rest => if t = .sym ";" then rest else afterSemicolon rest

/-- The two names a use of `HOOK` declares. -/
structure HookDecl where
  /-- The static variable that stores the original implementation. -/
  orig : Tok
  /-- The replacement function. -/
  repl : Tok
  deriving DecidableEq, Repr

/-- The declarations `static T (*orig)(...); static T repl(...)` read from a
token sequence. -/
def parseHook (ts : List Tok) : Option HookDecl :=
  match declaredPointer ts, declaredFunction (afterSemicolon ts) with
  | some o, some r => some { orig := o, repl := r }
  | _, _ => none

/-- The function a call expression `f ( ... )` calls. -/
def callee : List Tok → Option Tok
  | f :: .sym "(" :: _ => some f
  | _ => none

/-- A class variable declaration `Class var = objc_getClass("className")`. -/
structure ClassDecl where
  /-- The variable declared. -/
  var : Tok
  /-- The name looked up. -/
  className : String
  deriving DecidableEq, Repr

/-- A class variable declaration read from a token sequence. -/
def parseClassDecl : List Tok → Option ClassDecl
  | [.sym "Class", v, .sym "=", .sym "objc_getClass", .sym "(", .str s, .sym ")"] =>
    some { var := v, className := s }
  | _ => none

/-- The call of `MSHookMessage` an install statement makes, and where its
result goes. -/
structure Call (SEL : Type) where
  /-- The variable the returned pointer is stored in. -/
  dest : Tok
  /-- The variable whose value is passed as the class. -/
  cls : Tok
  /-- The selector handle passed. -/
  sel : SEL
  /-- The function whose address is passed. -/
  repl : Tok
  deriving DecidableEq, Repr

/-- The call an install statement makes, with `stack` bytes of automatic
storage left for the buffer of `__getsel`. `@selector(name)` is taken to be the
handle `sel_getUid` gives for the same name. The string literal given to
`__getsel` is an array of its characters and a terminating NUL. -/
def evalInstall {SEL : Type} (stack : Nat) (sel_getUid : List Nat → SEL) (i : Install) :
    Except Fault (Call SEL) :=
  match i.selector with
  | .atSelector name =>
    .ok { dest := i.dest, cls := i.cls, sel := sel_getUid (ascii name), repl := i.repl }
  | .getsel lit =>
    match __getsel stack sel_getUid (ascii lit ++ [0]) with
    | .ok h => .ok { dest := i.dest, cls := i.cls, sel := h, repl := i.repl }
    | .error e => .error e

/-- The call made by the statement a token sequence spells, if it spells an
install statement. -/
def installCall {SEL : Type} (stack : Nat) (sel_getUid : List Nat → SEL) (ts : List Tok) :
    Option (Except Fault (Call SEL)) :=
  (parseInstall ts).map (evalInstall stack sel_getUid)

/-- Whether a token is the name of a macro of `env`. -/
def isMacroName (env : List Define) : Tok → Bool
  | .sym name => (lookup env name).isSome
  | .str _ => false

/-- A token sequence in which no token is the name of a macro of `env`. -/
def MacroFree (env : List Define) (ts : List Tok) : Prop :=
  ∀ t ∈ ts, isMacroName env t = false

instance (env : List Define) (ts : List Tok) : Decidable (MacroFree env ts) := by
  unfold MacroFree; infer_instance

/-- The names the aliases of the header stand for. -/
def aliasTargets : List Tok :=
  [.sym "HOOK_MESSAGE_WITH_SINGLE_ARG", .sym "HOOK_MESSAGE_AUTO",
    .sym "HOOK_MESSAGE_REPLACEMENT", .sym "GET_CLASS"]

/-- The number of steps the replacement of a token takes under the header when
no `(` follows it: two for an alias (it is replaced, then its replacement is
passed), one for any other token. -/
def weight (t : PTok) : Nat :=
  match t.tok with
  | .str _ => 1
  | .sym name =>
    if name ∈ t.hide then 1
    else
      match lookup header name with
      | none => 1
      | some d => if d.params.isNone then 2 else 1

/-- A use of `HOOK(class, name, type, args...)`: the class and method names
are one token each, the return type and the argument declarations are token
sequences. -/
structure HookUse where
  /-- The argument `class`. -/
  cls : String
  /-- The argument `name`. -/
  name : String
  /-- The argument `type`. -/
  type : List Tok
  /-- The variable argument `args`, with its commas. -/
  args : List Tok
  deriving DecidableEq, Repr

/-- The tokens a use of `HOOK` expands to, with the header's definitions in
scope. -/
def HookUse.expansion (u : HookUse) : Option (List Tok) :=
  expand header HOOK [[.sym u.cls], [.sym u.name], u.type, u.args]

/-- A use of `HOOK` whose arguments are what the parameters stand for: two
identifiers, a return type written before the declarator (so without `(`), and
no `;` anywhere. -/
def HookUse.WellFormed (u : HookUse) : Prop :=
  IsIdentifier u.cls ∧ IsIdentifier u.name ∧
    Tok.sym "(" ∉ u.type ∧ Tok.sym ";" ∉ u.type ∧ Tok.sym ";" ∉ u.args

instance (u : HookUse) : Decidable u.WellFormed := by
  unfold HookUse.WellFormed; infer_instance

/-- A name with every `$` replaced by `:`, stated on the characters of the
name and independently of `__getsel`: the selector a mangled name stands for. -/
def dollarsToColons (n : String) : List Char :=
  n.data.map (fun ch => if ch = '$' then ':' else ch)

/-- The object-like definitions of the header: its aliases. -/
def aliases : List Define := header.filter (fun d => d.params.isNone)

/-- An alias resolves when it expands to the name of one of the four
definitions `GET_CLASS`, `HOOK_MESSAGE`, `HOOK_MESSAGE_AUTO` and
`HOOK_MESSAGE_REPLACEMENT`, and the header defines that name so. -/
def resolves (d : Define) : Prop :=
  ∃ t ∈ [GET_CLASS, HOOK_MESSAGE, HOOK_MESSAGE_AUTO, HOOK_MESSAGE_REPLACEMENT],
    expand header d [] = some [.sym t.name] ∧ lookup header t.name = some t

instance (d : Define) : Decidable (resolves d) := by unfold resolves; infer_instance

/-- The use `HOOK(Class, initWithFrame$andOtherThing$, id, CGRect frame, id otherThing)`
given as an example in the header. -/
def sampleHook : HookUse :=
  { cls := "Class", name := "initWithFrame$andOtherThing$", type := [.sym "id"],
    args := [.sym "CGRect", .sym "frame", .sym ",", .sym "id", .sym "otherThing"] }

/-- The use `HOOK(Class, initWithFrame$andOtherThing$, void)`. -/
def sampleHookVoid : HookUse :=
  { cls := "Class", name := "initWithFrame$andOtherThing$", type := [.sym "void"], args := [] }

/-- The use `HOOK(A, b$c$, id, id x, id y)`: the method `b:c:` of the class `A`. -/
def hookOfA : HookUse :=
  { cls := "A", name := "b$c$", type := [.sym "id"],
    args := [.sym "id", .sym "x", .sym ",", .sym "id", .sym "y"] }

/-- The use `HOOK(A$b, c$, id, id y)`: the method `c:` of the class `A$b`. -/
def hookOfAb : HookUse :=
  { cls := "A$b", name := "c$", type := [.sym "id"], args := [.sym "id", .sym "y"] }

/-- The use `HOOK(DHGetClass, init, HOOK_MESSAGE_EX *, id DHGetClass)`, whose
arguments are names of aliases of the header. -/
def hookOfAliases : HookUse :=
  { cls := "DHGetClass", name := "init", type := [.sym "HOOK_MESSAGE_EX", .sym "*"],
    args := [.sym "id", .sym "DHGetClass"] }

/-! ## The loop of `__getsel` -/

theorem loopBody_frameAt (in_ : List Nat) (N k : Nat) (hN : k < N) (hk : k < in_.length) :
    loopBody in_ (frameAt in_ N k) = .ok (frameAt in_ N (k + 1)) := by
  have hlen : (List.take k in_).length = k := by
    rw [List.length_take]; omega
  obtain ⟨m, hm⟩ : ∃ m, N - k = m + 1 := ⟨N - k - 1, by omega⟩
  have hm' : N - (k + 1) = m := by omega
  simp only [loopBody, frameAt, List.getElem?_eq_getElem hk, List.length_append, List.length_map,
    hlen, List.length_replicate, hm, hm']
  rw [if_pos (by omega)]
  congr 2
  · rw [List.set_append_right _ _ (by simp [hlen])]
    rw [List.length_map, hlen, Nat.sub_self, List.replicate_succ, List.set_cons_zero,
      List.take_succ, List.getElem?_eq_getElem hk]
    simp only [Option.toList, List.map_append, List.map_cons, List.map_nil, List.append_assoc,
      List.singleton_append]
  · rw [List.range_succ]
  · rw [List.range_succ]

theorem forLoop_frameAt (in_ : List Nat) (N : Nat) (hN : N ≤ in_.length) :
    ∀ (fuel k : Nat), k + fuel = N →
      forLoop in_ fuel (frameAt in_ N k) = .ok (frameAt in_ N N) := by
  intro fuel
  induction fuel with
  | zero =>
    intro k hk
    have : k = N := by omega
    subst this
    simp [forLoop, frameAt]
  | succ fuel ih =>
    intro k hk
    have h1 : k < N := by omega
    have h2 : ((frameAt in_ N k).i : Int) < (frameAt in_ N k).len := by
      simp only [frameAt]; exact_mod_cast h1
    rw [forLoop, if_pos h2, loopBody_frameAt in_ N k h1 (by omega)]
    exact ih (k + 1) (by omega)

/-! ### `strlen`, the conversion to `int`, and the read made by `sel_getUid` -/

theorem strlen_append_nul (S rest : List Nat) (h : 0 ∉ S) :
    strlen (S ++ 0 :: rest) = .ok S.length := by
  induction S with
  | nil => simp [strlen]
  | cons c cs ih =>
    have hc : c ≠ 0 := fun hc => h (by simp [hc])
    have hcs : 0 ∉ cs := fun hcs => h (by simp [hcs])
    simp [strlen, hc, ih hcs]

theorem toInt_of_lt (n : Nat) (h : n < 2147483648) : toInt n = (n : Int) := by
  unfold toInt
  omega

theorem toInt_lt_self (n : Nat) (h : ¬ n < 2147483648) : toInt n < (n : Int) := by
  unfold toInt
  omega

theorem readCString_terminated (S : List Nat) (tail : List (Option Nat)) (h : 0 ∉ S) :
    readCString (S.map (fun c => some (if c = dollar then colon else c)) ++ some 0 :: tail)
      = .ok (S.map (fun c => if c = dollar then colon else c)) := by
  induction S with
  | nil => simp [readCString]
  | cons c cs ih =>
    have hc : c ≠ 0 := fun hc => h (by simp [hc])
    have hcs : 0 ∉ cs := fun hcs => h (by simp [hcs])
    have hc' : (if c = dollar then colon else c) ≠ 0 := by
      split <;> simp_all
    simp [readCString, hc', ih hcs]

theorem readCString_unterminated (S : List Nat) (h : 0 ∉ S) :
    readCString (S.map (fun c => some (if c = dollar then colon else c)))
      = .error .selectorUnterminated := by
  induction S with
  | nil => simp [readCString]
  | cons c cs ih =>
    have hc : c ≠ 0 := fun hc => h (by simp [hc])
    have hcs : 0 ∉ cs := fun hcs => h (by simp [hcs])
    have hc' : (if c = dollar then colon else c) ≠ 0 := by
      split <;> simp_all
    simp [readCString, hc', ih hcs]

/-! ### `__getsel` on its domain and outside it -/

theorem getselFrame_of_strlen (stack : Nat) (in_ : List Nat) (n : Nat) (L : Int)
    (hn : strlen in_ = .ok n) (hL : toInt (n + 1) = L) :
    getselFrame stack in_ =
      if L ≤ 0 then .error .vlaSize
      else if stack < L.toNat then .error .stackOverflow
      else forLoop in_ L.toNat
        { len := L, selector := List.replicate L.toNat none, i := 0,
          reads := [], writes := [], iterations := 0 } := by
  subst hL
  unfold getselFrame
  rw [hn]

theorem getselFrame_object (stack : Nat) (S : CStr) (rest : List Nat)
    (h : S.chars.length + 1 < 2147483648) (hs : S.chars.length + 1 ≤ stack) :
    getselFrame stack (S.object rest)
      = .ok (frameAt (S.object rest) (S.chars.length + 1) (S.chars.length + 1)) := by
  have hlen : S.chars.length + 1 ≤ (S.object rest).length := by
    simp [CStr.object]
  rw [getselFrame_of_strlen stack (S.object rest) S.chars.length
    ((S.chars.length + 1 : Nat) : Int) (strlen_append_nul _ _ S.noNul) (toInt_of_lt _ h)]
  rw [if_neg (by omega), Int.toNat_ofNat, if_neg (by omega)]
  exact forLoop_frameAt (S.object rest) (S.chars.length + 1) hlen (S.chars.length + 1) 0
    (by omega)

theorem frameAt_selector_full (S : CStr) (rest : List Nat) :
    (frameAt (S.object rest) (S.chars.length + 1) (S.chars.length + 1)).selector
      = S.chars.map (fun c => some (if c = dollar then colon else c)) ++ [some 0] := by
  simp [frameAt, CStr.object, List.take_append_eq_append_take]

theorem selectorString_object (stack : Nat) (S : CStr) (rest : List Nat)
    (h : S.chars.length + 1 < 2147483648) (hs : S.chars.length + 1 ≤ stack) :
    selectorString stack (S.object rest)
      = .ok (S.chars.map (fun c => if c = dollar then colon else c)) := by
  unfold selectorString
  rw [getselFrame_object stack S rest h hs]
  simp only [frameAt_selector_full]
  exact readCString_terminated S.chars [] S.noNul

theorem selectorString_stackOverflow (stack : Nat) (S : List Nat) (h0 : 0 ∉ S)
    (rest : List Nat) (h : S.length + 1 < 2147483648) (hs : stack < S.length + 1) :
    selectorString stack (S ++ 0 :: rest) = .error .stackOverflow := by
  unfold selectorString
  rw [getselFrame_of_strlen stack (S ++ 0 :: rest) S.length ((S.length + 1 : Nat) : Int)
    (strlen_append_nul _ _ h0) (toInt_of_lt _ h)]
  rw [if_neg (by omega), Int.toNat_ofNat, if_pos hs]

theorem selectorString_overflow (stack : Nat) (S : CStr)
    (h : ¬ S.chars.length + 1 < 2147483648) :
    ∃ e, ∀ rest : List Nat, selectorString stack (S.object rest) = .error e := by
  have hlt := toInt_lt_self _ h
  obtain ⟨L, hL⟩ : ∃ L, toInt (S.chars.length + 1) = L := ⟨_, rfl⟩
  rw [hL] at hlt
  by_cases hpos : L ≤ 0
  · refine ⟨.vlaSize, fun rest => ?_⟩
    unfold selectorString
    rw [getselFrame_of_strlen stack (S.object rest) S.chars.length L
      (strlen_append_nul _ _ S.noNul) hL, if_pos hpos]
  · obtain ⟨M, hM⟩ : ∃ M : Nat, L = (M : Int) := ⟨L.toNat, by omega⟩
    subst hM
    by_cases hst : stack < M
    · refine ⟨.stackOverflow, fun rest => ?_⟩
      unfold selectorString
      rw [getselFrame_of_strlen stack (S.object rest) S.chars.length M
        (strlen_append_nul _ _ S.noNul) hL, if_neg hpos, Int.toNat_ofNat, if_pos hst]
    · refine ⟨.selectorUnterminated, fun rest => ?_⟩
      unfold selectorString
      rw [getselFrame_of_strlen stack (S.object rest) S.chars.length M
        (strlen_append_nul _ _ S.noNul) hL, if_neg hpos, Int.toNat_ofNat, if_neg hst]
      have hMle : M ≤ S.chars.length := by omega
      have hin : M ≤ (S.object rest).length := by
        rw [CStr.object, List.length_append]; omega
      have hrun := forLoop_frameAt (S.object rest) M hin M 0 (by omega)
      simp only [frameAt, List.take_zero, List.map_nil, List.nil_append, Nat.sub_zero,
        List.range_zero, Nat.sub_self, List.replicate_zero, List.append_nil] at hrun
      rw [hrun]
      show readCString _ = _
      rw [CStr.object, List.take_append_of_le_length hMle]
      exact readCString_unterminated _ (fun h0 => S.noNul (List.mem_of_mem_take h0))

theorem selectorString_vlaSize (stack : Nat) (S : List Nat) (h0 : 0 ∉ S) (rest : List Nat)
    (h : S.length = 2147483647) :
    selectorString stack (S ++ 0 :: rest) = .error .vlaSize := by
  unfold selectorString
  rw [getselFrame_of_strlen stack (S ++ 0 :: rest) 2147483647 (-2147483648)
    (by rw [← h]; exact strlen_append_nul _ _ h0) (by decide), if_pos (by decide)]

theorem selectorString_error (stack : Nat) (S : CStr)
    (h : ¬ (S.chars.length + 1 < 2147483648 ∧ S.chars.length + 1 ≤ stack)) :
    ∃ e, ∀ rest : List Nat, selectorString stack (S.object rest) = .error e := by
  by_cases hb : S.chars.length + 1 < 2147483648
  · have hs : stack < S.chars.length + 1 := by
      by_contra hc
      exact h ⟨hb, by omega⟩
    exact ⟨.stackOverflow, fun rest =>
      selectorString_stackOverflow stack S.chars S.noNul rest hb hs⟩
  · exact selectorString_overflow stack S hb

theorem selectorString_rest (stack : Nat) (S : CStr) (r1 r2 : List Nat) :
    selectorString stack (S.object r1) = selectorString stack (S.object r2) := by
  by_cases h : S.chars.length + 1 < 2147483648 ∧ S.chars.length + 1 ≤ stack
  · rw [selectorString_object stack S r1 h.1 h.2, selectorString_object stack S r2 h.1 h.2]
  · obtain ⟨e, he⟩ := selectorString_error stack S h
    rw [he r1, he r2]

theorem selectorString_ok_iff (stack : Nat) (S : CStr) (rest : List Nat) (out : List Nat) :
    selectorString stack (S.object rest) = .ok out ↔
      (S.chars.length + 1 < 2147483648 ∧ S.chars.length + 1 ≤ stack) ∧
        out = S.chars.map (fun c => if c = dollar then colon else c) := by
  by_cases h : S.chars.length + 1 < 2147483648 ∧ S.chars.length + 1 ≤ stack
  · rw [selectorString_object stack S rest h.1 h.2]
    constructor
    · intro hk
      exact ⟨h, (Except.ok.inj hk).symm⟩
    · rintro ⟨_, rfl⟩
      rfl
  · obtain ⟨e, he⟩ := selectorString_error stack S h
    rw [he rest]
    constructor
    · intro hk
      cases hk
    · rintro ⟨h', _⟩
      exact absurd h' h

theorem map_dollar_injective (a b : List Nat) (ha : colon ∉ a) (hb : colon ∉ b)
    (h : a.map (fun c => if c = dollar then colon else c)
      = b.map (fun c => if c = dollar then colon else c)) : a = b := by
  induction a generalizing b with
  | nil =>
    cases b with
    | nil => rfl
    | cons y ys => simp at h
  | cons x xs ih =>
    cases b with
    | nil => simp at h
    | cons y ys =>
      simp only [List.map_cons, List.cons.injEq] at h
      have hx : x ≠ colon := fun hx => ha (by simp [hx])
      have hy : y ≠ colon := fun hy => hb (by simp [hy])
      have hxs : colon ∉ xs := fun hm => ha (List.mem_cons_of_mem _ hm)
      have hys : colon ∉ ys := fun hm => hb (List.mem_cons_of_mem _ hm)
      have hxy : x = y := by
        have h1 := h.1
        split at h1 <;> split at h1 <;> simp_all
      rw [hxy, ih ys hxs hys h.2]

theorem getsel_ok {SEL : Type} (stack : Nat) (sel_getUid : List Nat → SEL) (in_ : List Nat)
    (handle : SEL) (h : __getsel stack sel_getUid in_ = .ok handle) :
    ∃ s, selectorString stack in_ = .ok s ∧ handle = sel_getUid s := by
  unfold __getsel at h
  cases hs : selectorString stack in_ with
  | error e => rw [hs] at h; cases h
  | ok s =>
    rw [hs] at h
    exact ⟨s, rfl, (Except.ok.inj h).symm⟩

/-! ## Macro replacement of arguments -/

theorem scan_macroFree (env : List Define) (ts : List PTok) :
    ∀ fuel, ts.length ≤ fuel → (∀ t ∈ ts, isMacroName env t.tok = false) →
      scan env fuel ts = some ts := by
  induction ts with
  | nil => intro fuel _ _; cases fuel <;> rfl
  | cons t rest ih =>
    intro fuel hf hfree
    cases fuel with
    | zero => simp at hf
    | succ fuel =>
      have hrest := ih fuel (by simpa using hf) (fun x hx => hfree x (List.mem_cons_of_mem _ hx))
      have ht := hfree t (List.mem_cons_self _ _)
      unfold scan
      cases htok : t.tok with
      | str s => simp [hrest]
      | sym name =>
        rw [htok] at ht
        have hl : lookup env name = none := by
          simpa [isMacroName] using ht
        simp only [hl, hrest]
        split <;> rfl

theorem prescan_macroFree (env : List Define) (ts : List Tok) (h : MacroFree env ts) :
    prescan env (ts.map PTok.fresh) = some (ts.map PTok.fresh) := by
  apply scan_macroFree
  · simp [scanFuel]; omega
  · intro t ht
    obtain ⟨x, hx, rfl⟩ := List.mem_map.mp ht
    exact h x hx

theorem map_tok_fresh (ts : List Tok) : (ts.map PTok.fresh).map PTok.tok = ts := by
  induction ts with
  | nil => rfl
  | cons t ts ih => simp [PTok.fresh, ih]

theorem alias_of_lookup (name : String) (d : Define) (h : lookup header name = some d)
    (hp : d.params = none) :
    d ∈ [HOOK_MESSAGE_ARGS, HOOK_MESSAGE_EX, HOOK_MESSAGE_F, DHGetClass,
      DHHookMessageWithReplacement, DHHookMessageWithAutoRename] := by
  have hmem : d ∈ header := List.mem_of_find?_eq_some h
  simp only [header, List.mem_cons, List.mem_singleton, List.not_mem_nil, or_false] at hmem
  rcases hmem with rfl | rfl | rfl | rfl | rfl | rfl | rfl | rfl | rfl | rfl | rfl | rfl
  all_goals first
    | (exact absurd hp (by decide))
    | decide

theorem substitute_alias (pre : List PTok → Option (List PTok)) (d : Define)
    (hs : List String)
    (h : d ∈ [HOOK_MESSAGE_ARGS, HOOK_MESSAGE_EX, HOOK_MESSAGE_F, DHGetClass,
      DHHookMessageWithReplacement, DHHookMessageWithAutoRename]) :
    ∃ tgt, substitute pre d [] hs = some [{ tok := .sym tgt, hide := hs }] ∧
      Tok.sym tgt ∈ aliasTargets ∧ tgt ≠ "(" ∧
      ∀ hide, weight { tok := .sym tgt, hide := hide } = 1 := by
  simp only [List.mem_cons, List.mem_singleton, List.not_mem_nil, or_false] at h
  rcases h with rfl | rfl | rfl | rfl | rfl | rfl
  · refine ⟨"HOOK_MESSAGE_WITH_SINGLE_ARG", ?_, by decide, by decide, fun hide => ?_⟩
    · simp [substitute, HOOK_MESSAGE_ARGS, pieces, paramIndex, expandPieces, operand,
        PTok.fresh]
    · have : lookup header "HOOK_MESSAGE_WITH_SINGLE_ARG" = none := by decide
      simp only [weight, this]; split <;> rfl
  · refine ⟨"HOOK_MESSAGE_AUTO", ?_, by decide, by decide, fun hide => ?_⟩
    · simp [substitute, HOOK_MESSAGE_EX, pieces, paramIndex, expandPieces, operand,
        PTok.fresh]
    · have : lookup header "HOOK_MESSAGE_AUTO" = some HOOK_MESSAGE_AUTO := by decide
      simp only [weight, this]; split <;> rfl
  · refine ⟨"HOOK_MESSAGE_REPLACEMENT", ?_, by decide, by decide, fun hide => ?_⟩
    · simp [substitute, HOOK_MESSAGE_F, pieces, paramIndex, expandPieces, operand,
        PTok.fresh]
    · have : lookup header "HOOK_MESSAGE_REPLACEMENT" = some HOOK_MESSAGE_REPLACEMENT := by
        decide
      simp only [weight, this]; split <;> rfl
  · refine ⟨"GET_CLASS", ?_, by decide, by decide, fun hide => ?_⟩
    · simp [substitute, DHGetClass, pieces, paramIndex, expandPieces, operand,
        PTok.fresh]
    · have : lookup header "GET_CLASS" = some GET_CLASS := by decide
      simp only [weight, this]; split <;> rfl
  · refine ⟨"HOOK_MESSAGE_REPLACEMENT", ?_, by decide, by decide, fun hide => ?_⟩
    · simp [substitute, DHHookMessageWithReplacement, pieces, paramIndex, expandPieces, operand,
        PTok.fresh]
    · have : lookup header "HOOK_MESSAGE_REPLACEMENT" = some HOOK_MESSAGE_REPLACEMENT := by
        decide
      simp only [weight, this]; split <;> rfl
  · refine ⟨"HOOK_MESSAGE_AUTO", ?_, by decide, by decide, fun hide => ?_⟩
    · simp [substitute, DHHookMessageWithAutoRename, pieces, paramIndex, expandPieces, operand,
        PTok.fresh]
    · have : lookup header "HOOK_MESSAGE_AUTO" = some HOOK_MESSAGE_AUTO := by decide
      simp only [weight, this]; split <;> rfl

theorem weight_pos (t : PTok) : 1 ≤ weight t := by
  unfold weight
  split
  · exact le_refl _
  · split
    · exact le_refl _
    · split
      · exact le_refl _
      · split <;> omega

theorem weight_le_two (t : PTok) : weight t ≤ 2 := by
  unfold weight
  split
  · omega
  · split
    · omega
    · split
      · omega
      · split <;> omega

theorem sum_weight_le (ts : List PTok) : (ts.map weight).sum ≤ 2 * ts.length := by
  induction ts with
  | nil => simp
  | cons t ts ih =>
    have := weight_le_two t
    simp only [List.map_cons, List.sum_cons, List.length_cons]
    omega

theorem scan_header (fuel : Nat) :
    ∀ ts : List PTok, (∀ t ∈ ts, t.tok ≠ .sym "(") → (ts.map weight).sum ≤ fuel →
      ∃ out, scan header fuel ts = some out ∧
        ∀ t ∈ out, t.tok ∈ ts.map PTok.tok ∨ t.tok ∈ aliasTargets := by
  induction fuel with
  | zero =>
    intro ts _ hsum
    cases ts with
    | nil => exact ⟨[], rfl, by simp⟩
    | cons t rest =>
      have := weight_pos t
      simp only [List.map_cons, List.sum_cons] at hsum
      omega
  | succ fuel ih =>
    intro ts hopen hsum
    cases ts with
    | nil => exact ⟨[], rfl, by simp⟩
    | cons t rest =>
      have hrestOpen : ∀ x ∈ rest, x.tok ≠ .sym "(" :=
        fun x hx => hopen x (List.mem_cons_of_mem _ hx)
      have hpos := weight_pos t
      simp only [List.map_cons, List.sum_cons] at hsum
      -- the case in which the token is passed over
      have pass : ∃ out, (scan header fuel rest).map (t :: ·) = some out ∧
          ∀ x ∈ out, x.tok ∈ (t :: rest).map PTok.tok ∨ x.tok ∈ aliasTargets := by
        obtain ⟨out, hout, hmem⟩ := ih rest hrestOpen (by omega)
        refine ⟨t :: out, by rw [hout]; rfl, fun x hx => ?_⟩
        rcases List.mem_cons.mp hx with rfl | hx
        · left; simp
        · rcases hmem x hx with h | h
          · left; simp only [List.map_cons, List.mem_cons]; right; exact h
          · right; exact h
      unfold scan
      cases htok : t.tok with
      | str s => simpa using pass
      | sym name =>
        simp only
        by_cases hhide : name ∈ t.hide
        · rw [if_pos hhide]; exact pass
        · rw [if_neg hhide]
          cases hl : lookup header name with
          | none => exact pass
          | some d =>
            simp only
            cases hp : d.params with
            | none =>
              simp only
              obtain ⟨tgt, hsub, htgt, hne, hw⟩ :=
                substitute_alias (fun a => scan header fuel a) d (name :: t.hide)
                  (alias_of_lookup name d hl hp)
              rw [hsub]
              simp only
              have hwt : weight t = 2 := by
                unfold weight
                rw [htok]
                simp only [if_neg hhide, hl, hp, Option.isNone_none, if_true]
              obtain ⟨out, hout, hmem⟩ := ih ([{ tok := .sym tgt, hide := name :: t.hide }] ++ rest)
                (by
                  intro x hx
                  rcases List.mem_append.mp hx with hx | hx
                  · rw [List.mem_singleton.mp hx]
                    simpa using hne
                  · exact hrestOpen x hx)
                (by
                  simp only [List.singleton_append, List.map_cons, List.sum_cons, hw]
                  omega)
              refine ⟨out, hout, fun x hx => ?_⟩
              rcases hmem x hx with h | h
              · simp only [List.singleton_append, List.map_cons, List.mem_cons] at h
                rcases h with h | h
                · right; rw [h]; exact htgt
                · left; simp only [List.map_cons, List.mem_cons]; right; exact h
              · right; exact h
            | some ps =>
              simp only
              cases rest with
              | nil =>
                exact ⟨[t], rfl, fun x hx => by left; rw [List.mem_singleton.mp hx]; simp⟩
              | cons p rest' =>
                simp only
                rw [if_neg (hopen p (by simp))]
                exact pass

theorem prescan_header (ts : List Tok) (h : Tok.sym "(" ∉ ts) :
    ∃ out, prescan header (ts.map PTok.fresh) = some out ∧
      ∀ t ∈ out.map PTok.tok, t ∈ ts ∨ t ∈ aliasTargets := by
  obtain ⟨out, hout, hmem⟩ := scan_header (scanFuel (ts.map PTok.fresh)) (ts.map PTok.fresh)
    (by
      intro t ht
      obtain ⟨x, hx, rfl⟩ := List.mem_map.mp ht
      intro hx'
      exact h (by simpa [PTok.fresh] using hx' ▸ hx))
    (by
      have := sum_weight_le (ts.map PTok.fresh)
      simp only [scanFuel]
      omega)
  refine ⟨out, hout, fun t ht => ?_⟩
  obtain ⟨x, hx, rfl⟩ := List.mem_map.mp ht
  rcases hmem x hx with h1 | h1
  · left
    rw [map_tok_fresh] at h1
    exact h1
  · right; exact h1

/-! ## The expansions of the macros -/

theorem tok_fresh (t : Tok) : (PTok.fresh t).tok = t := rfl

theorem hide_fresh (t : Tok) : (PTok.fresh t).hide = [] := rfl

theorem fresh_inj (a b : Tok) : PTok.fresh a = PTok.fresh b ↔ a = b := by
  constructor
  · intro h
    exact congrArg PTok.tok h
  · rintro rfl
    rfl

theorem map_tok_comp_fresh (ts : List Tok) : List.map (PTok.tok ∘ PTok.fresh) ts = ts := by
  rw [← List.map_map, map_tok_fresh]

theorem expand_HOOK (env : List Define) (c n : String) (ty args : List Tok)
    (c' ty' : List PTok)
    (hc : prescan env [PTok.fresh (.sym c)] = some c')
    (hty : prescan env (ty.map PTok.fresh) = some ty') :
    expand env HOOK [[.sym c], [.sym n], ty, args] = some
      (((Tok.sym "static" :: ty'.map PTok.tok) ++
        (.sym "(" :: .sym "*" :: .sym ("_" ++ c ++ "$" ++ n) :: .sym ")" ::
          .sym "(" :: (c'.map PTok.tok ++
            (.sym "*" :: .sym "self" :: .sym "," :: .sym "SEL" :: .sym "sel" ::
              ((if args = [] then [] else .sym "," :: args) ++ [.sym ")"])))))
      ++ .sym ";" ::
        ((Tok.sym "static" :: ty'.map PTok.tok) ++
          .sym ("$" ++ c ++ "$" ++ n) :: .sym "(" ::
            (c'.map PTok.tok ++
              (.sym "*" :: .sym "self" :: .sym "," :: .sym "SEL" :: .sym "sel" ::
                ((if args = [] then [] else .sym "," :: args) ++ [.sym ")"]))))) := by
  by_cases ha : args = []
  · subst ha
    simp [expand, substitute, HOOK, pieces, paramIndex, expandPieces, operand, glue, spell,
      Tok.spelling, tok_fresh, hide_fresh, fresh_inj, map_tok_comp_fresh, hc, hty]
  · have ha' : ¬ List.map PTok.fresh args = [] := by simpa using ha
    simp [expand, substitute, HOOK, pieces, paramIndex, expandPieces, operand, glue, spell,
      Tok.spelling, hc, hty, ha, ha', tok_fresh, hide_fresh, fresh_inj, map_tok_comp_fresh]

theorem expand_CALL_ORIG (env : List Define) (c n : String) (args : List Tok) :
    expand env CALL_ORIG [[.sym c], [.sym n], args] = some
      ([.sym ("_" ++ c ++ "$" ++ n), .sym "(", .sym "self", .sym ",", .sym "sel"]
        ++ (if args = [] then [] else .sym "," :: args) ++ [.sym ")"]) := by
  by_cases ha : args = []
  · subst ha
    simp [expand, substitute, CALL_ORIG, pieces, paramIndex, expandPieces, operand, glue, spell,
      Tok.spelling, tok_fresh, hide_fresh, fresh_inj, map_tok_comp_fresh]
  · have ha' : ¬ List.map PTok.fresh args = [] := by simpa using ha
    simp [expand, substitute, CALL_ORIG, pieces, paramIndex, expandPieces, operand, glue, spell,
      Tok.spelling, ha, ha', tok_fresh, hide_fresh, fresh_inj, map_tok_comp_fresh]

theorem expand_GET_CLASS (env : List Define) (c : String) :
    expand env GET_CLASS [[.sym c]] = some
      [.sym "Class", .sym ("$" ++ c), .sym "=", .sym "objc_getClass", .sym "(", .str c,
        .sym ")"] := by
  simp [expand, substitute, GET_CLASS, pieces, paramIndex, expandPieces, operand, glue, spell,
    Tok.spelling, tok_fresh, hide_fresh, fresh_inj, map_tok_comp_fresh]

theorem expand_HOOK_MESSAGE (env : List Define) (c n : String) (n' : List PTok)
    (hn : prescan env [PTok.fresh (.sym n)] = some n') :
    expand env HOOK_MESSAGE [[.sym c], [.sym n]] = some
      ([.sym ("_" ++ c ++ "$" ++ n), .sym "=", .sym "MSHookMessage", .sym "(",
        .sym ("$" ++ c), .sym ",", .sym "@", .sym "selector", .sym "("] ++ n'.map PTok.tok ++
      [.sym ")", .sym ",", .sym "&", .sym ("$" ++ c ++ "$" ++ n), .sym ")"]) := by
  simp [expand, substitute, HOOK_MESSAGE, pieces, paramIndex, expandPieces, operand, glue, spell,
    Tok.spelling, tok_fresh, hide_fresh, fresh_inj, map_tok_comp_fresh, hn]

theorem expand_HOOK_MESSAGE_AUTO (env : List Define) (c n : String) :
    expand env HOOK_MESSAGE_AUTO [[.sym c], [.sym n]] = some
      [.sym ("_" ++ c ++ "$" ++ n), .sym "=", .sym "MSHookMessage", .sym "(",
        .sym ("$" ++ c), .sym ",", .sym "__getsel", .sym "(", .str n, .sym ")",
        .sym ",", .sym "&", .sym ("$" ++ c ++ "$" ++ n), .sym ")"] := by
  simp [expand, substitute, HOOK_MESSAGE_AUTO, pieces, paramIndex, expandPieces, operand, glue,
    spell, Tok.spelling, tok_fresh, hide_fresh, fresh_inj, map_tok_comp_fresh]

theorem expand_HOOK_MESSAGE_REPLACEMENT (env : List Define) (c : String) (sel : List Tok)
    (n : String) (sel' : List PTok) (hsel : prescan env (sel.map PTok.fresh) = some sel') :
    expand env HOOK_MESSAGE_REPLACEMENT [[.sym c], sel, [.sym n]] = some
      ([.sym ("_" ++ c ++ "$" ++ n), .sym "=", .sym "MSHookMessage", .sym "(",
        .sym ("$" ++ c), .sym ",", .sym "@", .sym "selector", .sym "("] ++ sel'.map PTok.tok ++
      [.sym ")", .sym ",", .sym "&", .sym ("$" ++ c ++ "$" ++ n), .sym ")"]) := by
  simp [expand, substitute, HOOK_MESSAGE_REPLACEMENT, pieces, paramIndex, expandPieces, operand,
    glue, spell, Tok.spelling, tok_fresh, hide_fresh, fresh_inj, map_tok_comp_fresh, hsel]

theorem spell_singleton (n : String) : spell [.sym n] = n := by
  simp [spell, Tok.spelling]

theorem parseInstall_selector (c n : String) (sel : List Tok) :
    parseInstall ([.sym ("_" ++ c ++ "$" ++ n), .sym "=", .sym "MSHookMessage", .sym "(",
        .sym ("$" ++ c), .sym ",", .sym "@", .sym "selector", .sym "("] ++ sel ++
      [.sym ")", .sym ",", .sym "&", .sym ("$" ++ c ++ "$" ++ n), .sym ")"]) =
      some { dest := .sym ("_" ++ c ++ "$" ++ n), cls := .sym ("$" ++ c),
             selector := .atSelector (spell sel), repl := .sym ("$" ++ c ++ "$" ++ n) } := by
  simp [parseInstall, parseInstallArgs]

theorem parseInstall_getsel (c n : String) :
    parseInstall [.sym ("_" ++ c ++ "$" ++ n), .sym "=", .sym "MSHookMessage", .sym "(",
        .sym ("$" ++ c), .sym ",", .sym "__getsel", .sym "(", .str n, .sym ")",
        .sym ",", .sym "&", .sym ("$" ++ c ++ "$" ++ n), .sym ")"] =
      some { dest := .sym ("_" ++ c ++ "$" ++ n), cls := .sym ("$" ++ c),
             selector := .getsel n, repl := .sym ("$" ++ c ++ "$" ++ n) } := by
  simp [parseInstall, parseInstallArgs]

/-! ### Reading the declarations of `HOOK` -/

theorem declaredPointer_append (pre rest : List Tok) (h : Tok.sym "(" ∉ pre) :
    declaredPointer (pre ++ rest) = declaredPointer rest := by
  induction pre with
  | nil => rfl
  | cons t ts ih =>
    have ht : t ≠ Tok.sym "(" := fun e => h (by simp [e])
    have hts : Tok.sym "(" ∉ ts := fun e => h (List.mem_cons_of_mem _ e)
    rw [List.cons_append, declaredPointer, if_neg (fun e => ht e.1)]
    exact ih hts

theorem afterSemicolon_append (pre rest : List Tok) (h : Tok.sym ";" ∉ pre) :
    afterSemicolon (pre ++ Tok.sym ";" :: rest) = rest := by
  induction pre with
  | nil => simp [afterSemicolon]
  | cons t ts ih =>
    have ht : t ≠ Tok.sym ";" := fun e => h (by simp [e])
    have hts : Tok.sym ";" ∉ ts := fun e => h (List.mem_cons_of_mem _ e)
    rw [List.cons_append, afterSemicolon, if_neg ht]
    exact ih hts

theorem declaredFunction_append (pre rest : List Tok) (f : Tok) (h : Tok.sym "(" ∉ pre)
    (hf : f ≠ Tok.sym "(") :
    declaredFunction (pre ++ f :: Tok.sym "(" :: rest) = some f := by
  induction pre with
  | nil => simp [declaredFunction]
  | cons t ts ih =>
    have hts : Tok.sym "(" ∉ ts := fun e => h (List.mem_cons_of_mem _ e)
    rw [List.cons_append, declaredFunction, if_neg, ih hts]
    cases ts with
    | nil => simpa using fun e => hf e
    | cons t' ts' =>
      have : t' ≠ Tok.sym "(" := fun e => h (by simp [e])
      simpa using this

theorem isIdentifier_ne_semicolon (c : String) (hc : IsIdentifier c) : c ≠ ";" := by
  rintro rfl
  exact absurd hc (by decide)

theorem isIdentifier_ne_paren (c : String) (hc : IsIdentifier c) : c ≠ "(" := by
  rintro rfl
  exact absurd hc (by decide)

theorem not_mem_of_prescan (ts : List Tok) (out : List PTok) (x : Tok)
    (hmem : ∀ t ∈ out.map PTok.tok, t ∈ ts ∨ t ∈ aliasTargets)
    (hx : x ∉ ts) (hx' : x ∉ aliasTargets) : x ∉ out.map PTok.tok := by
  intro h
  rcases hmem x h with h1 | h1
  · exact hx h1
  · exact hx' h1

theorem parseHook_of_shape (T R1 R2 : List Tok) (V F : Tok)
    (hT : Tok.sym "(" ∉ Tok.sym "static" :: T)
    (hsemi : Tok.sym ";" ∉ (Tok.sym "static" :: T) ++ (.sym "(" :: .sym "*" :: V :: R1))
    (hF : F ≠ Tok.sym "(") :
    parseHook (((Tok.sym "static" :: T) ++ (.sym "(" :: .sym "*" :: V :: R1))
        ++ .sym ";" :: ((Tok.sym "static" :: T) ++ F :: .sym "(" :: R2))
      = some { orig := V, repl := F } := by
  have hP : declaredPointer (((Tok.sym "static" :: T) ++ (.sym "(" :: .sym "*" :: V :: R1))
      ++ .sym ";" :: ((Tok.sym "static" :: T) ++ F :: .sym "(" :: R2)) = some V := by
    rw [List.append_assoc, declaredPointer_append _ _ hT]
    simp [declaredPointer]
  have hQ : declaredFunction (afterSemicolon
      (((Tok.sym "static" :: T) ++ (.sym "(" :: .sym "*" :: V :: R1))
        ++ .sym ";" :: ((Tok.sym "static" :: T) ++ F :: .sym "(" :: R2))) = some F := by
    rw [afterSemicolon_append _ _ hsemi]
    exact declaredFunction_append _ _ _ hT hF
  rw [parseHook, hP, hQ]

theorem parseHook_expansion (u : HookUse) (hu : u.WellFormed) :
    u.expansion.bind parseHook =
      some { orig := .sym ("_" ++ u.cls ++ "$" ++ u.name),
             repl := .sym ("$" ++ u.cls ++ "$" ++ u.name) } := by
  obtain ⟨hc, -, hty1, hty2, hargs⟩ := hu
  have hcs : Tok.sym ";" ∉ [Tok.sym u.cls] := by
    simpa using fun e => isIdentifier_ne_semicolon _ hc e.symm
  have hcp : Tok.sym "(" ∉ [Tok.sym u.cls] := by
    simpa using fun e => isIdentifier_ne_paren _ hc e.symm
  obtain ⟨c', hc', hcmem⟩ := prescan_header [Tok.sym u.cls] hcp
  obtain ⟨ty', hty', htmem⟩ := prescan_header u.type hty1
  have hC : Tok.sym ";" ∉ c'.map PTok.tok :=
    not_mem_of_prescan _ _ _ hcmem hcs (by decide)
  have hT1 : Tok.sym "(" ∉ ty'.map PTok.tok :=
    not_mem_of_prescan _ _ _ htmem hty1 (by decide)
  have hT2 : Tok.sym ";" ∉ ty'.map PTok.tok :=
    not_mem_of_prescan _ _ _ htmem hty2 (by decide)
  have hpre : Tok.sym "(" ∉ Tok.sym "static" :: ty'.map PTok.tok := by
    intro h
    rcases List.mem_cons.mp h with h | h
    · exact absurd h (by decide)
    · exact hT1 h
  rw [HookUse.expansion, expand_HOOK header u.cls u.name u.type u.args c' ty' hc' hty',
    Option.some_bind]
  apply parseHook_of_shape _ _ _ _ _ hpre
  · have hT' : ∀ x ∈ ty', ¬ x.tok = Tok.sym ";" := by simpa using hT2
    have hC' : ∀ x ∈ c', ¬ x.tok = Tok.sym ";" := by simpa using hC
    by_cases ha : u.args = []
    · simp [ha, String.ext_iff]
      exact ⟨hT', hC'⟩
    · simp [ha, hargs, String.ext_iff]
      exact ⟨hT', hC'⟩
  · simp [String.ext_iff]

/-! ### The pasted names -/

theorem append_sep_cancel (x : Char) (a b r r' : List Char) (ha : x ∉ a) (hb : x ∉ b)
    (h : a ++ x :: r = b ++ x :: r') : a = b ∧ r = r' := by
  induction a generalizing b with
  | nil =>
    cases b with
    | nil => exact ⟨rfl, by simpa using h⟩
    | cons y ys =>
      simp only [List.nil_append, List.cons_append, List.cons.injEq] at h
      exact absurd (by simp [h.1]) hb
  | cons z zs ih =>
    cases b with
    | nil =>
      simp only [List.nil_append, List.cons_append, List.cons.injEq] at h
      exact absurd (by simp [h.1]) ha
    | cons y ys =>
      simp only [List.cons_append, List.cons.injEq] at h
      have hzs : x ∉ zs := fun e => ha (List.mem_cons_of_mem _ e)
      have hys : x ∉ ys := fun e => hb (List.mem_cons_of_mem _ e)
      obtain ⟨e1, e2⟩ := ih ys hzs hys h.2
      exact ⟨by rw [h.1, e1], e2⟩

theorem paste_names_injective (p c1 n1 c2 n2 : String)
    (h1 : '$' ∉ c1.data) (h2 : '$' ∉ c2.data)
    (h : p ++ c1 ++ "$" ++ n1 = p ++ c2 ++ "$" ++ n2) : c1 = c2 ∧ n1 = n2 := by
  have hd := congrArg String.data h
  simp only [String.data_append, List.append_assoc, List.append_cancel_left_eq] at hd
  obtain ⟨e1, e2⟩ := append_sep_cancel '$' c1.data c2.data n1.data n2.data h1 h2 hd
  exact ⟨String.ext e1, String.ext e2⟩

/-! ### String literals as objects -/

theorem toNat_eq_dollar (ch : Char) : ch.toNat = dollar ↔ ch = '$' := by
  constructor
  · intro h
    rw [← Char.ofNat_toNat ch, h]
  · rintro rfl
    rfl

theorem ascii_dollarsToColons (n : String) :
    (dollarsToColons n).map Char.toNat
      = (ascii n).map (fun c => if c = dollar then colon else c) := by
  unfold dollarsToColons ascii
  rw [List.map_map, List.map_map]
  apply List.map_congr_left
  intro ch _
  by_cases h : ch = '$'
  · subst h
    rfl
  · have h' : ¬ ch.toNat = dollar := fun e => h ((toNat_eq_dollar ch).mp e)
    simp [h, h']

theorem isIdentChar_ne_nul (ch : Char) (h : isIdentChar ch) : ch.toNat ≠ 0 := by
  rcases h with h | h | h | h
  · unfold isLetter at h; omega
  · unfold isDigit at h; omega
  · subst h; decide
  · subst h; decide

theorem ascii_noNul (n : String) (hn : IsIdentifier n) : 0 ∉ ascii n := by
  intro h
  obtain ⟨ch, hch, h0⟩ := List.mem_map.mp h
  exact isIdentChar_ne_nul ch (hn.2 ch hch) h0

theorem ascii_length (n : String) : (ascii n).length = n.length := by
  unfold ascii
  rw [List.length_map]
  rfl

/-! ### Scanning the install statements again -/

theorem isMacroName_underscore (x : String) : isMacroName header (.sym ("_" ++ x)) = false := by
  simp [isMacroName, lookup, header, List.find?, HOOK, CALL_ORIG, GET_CLASS, HOOK_MESSAGE,
    HOOK_MESSAGE_AUTO, HOOK_MESSAGE_REPLACEMENT, HOOK_MESSAGE_ARGS, HOOK_MESSAGE_EX,
    HOOK_MESSAGE_F, DHGetClass, DHHookMessageWithReplacement, DHHookMessageWithAutoRename,
    String.ext_iff]

theorem isMacroName_dollar (x : String) : isMacroName header (.sym ("$" ++ x)) = false := by
  simp [isMacroName, lookup, header, List.find?, HOOK, CALL_ORIG, GET_CLASS, HOOK_MESSAGE,
    HOOK_MESSAGE_AUTO, HOOK_MESSAGE_REPLACEMENT, HOOK_MESSAGE_ARGS, HOOK_MESSAGE_EX,
    HOOK_MESSAGE_F, DHGetClass, DHHookMessageWithReplacement, DHHookMessageWithAutoRename,
    String.ext_iff]

theorem preprocess_macroFree (env : List Define) (ts : List Tok) (h : MacroFree env ts) :
    preprocess env ts = some ts := by
  rw [preprocess, prescan_macroFree env ts h, Option.map_some', map_tok_fresh]

theorem rescan_AUTO (c n : String) :
    (expand header HOOK_MESSAGE_AUTO [[.sym c], [.sym n]]).bind (preprocess header) =
      expand header HOOK_MESSAGE_AUTO [[.sym c], [.sym n]] := by
  rw [expand_HOOK_MESSAGE_AUTO, Option.some_bind]
  apply preprocess_macroFree
  intro t ht
  simp only [List.mem_cons, List.mem_singleton, List.not_mem_nil, or_false] at ht
  rcases ht with rfl | rfl | rfl | rfl | rfl | rfl | rfl | rfl | rfl | rfl | rfl | rfl | rfl | rfl
  all_goals first
    | decide
    | (simp only [String.append_assoc]; exact isMacroName_underscore _)
    | (simp only [String.append_assoc]; exact isMacroName_dollar _)
    | rfl

theorem rescan_REPLACEMENT (c n : String) (sel : List Tok) (hfree : MacroFree header sel) :
    (expand header HOOK_MESSAGE_REPLACEMENT [[.sym c], sel, [.sym n]]).bind
        (preprocess header) =
      expand header HOOK_MESSAGE_REPLACEMENT [[.sym c], sel, [.sym n]] := by
  rw [expand_HOOK_MESSAGE_REPLACEMENT header c sel n _ (prescan_macroFree header sel hfree),
    Option.some_bind, map_tok_fresh]
  apply preprocess_macroFree
  intro t ht
  simp only [List.mem_cons, List.mem_append, List.mem_singleton, List.not_mem_nil,
    or_false] at ht
  rcases ht with (((rfl | rfl | rfl | rfl | rfl | rfl | rfl | rfl | rfl) | ht) |
    (rfl | rfl | rfl | rfl | rfl))
  all_goals first
    | decide
    | exact hfree t ht
    | (simp only [String.append_assoc]; exact isMacroName_underscore _)
    | (simp only [String.append_assoc]; exact isMacroName_dollar _)
    | rfl

/-! ### The expansions against the complete replacement of the source text -/

theorem preprocess_samples :
    preprocess header [.sym "HOOK_MESSAGE_F", .sym "(", .sym "Class", .sym ",",
        .sym "initWithFrame", .sym ":", .sym ",", .sym "initWithFrame$", .sym ")"] =
      expand header HOOK_MESSAGE_REPLACEMENT
        [[.sym "Class"], [.sym "initWithFrame", .sym ":"], [.sym "initWithFrame$"]] ∧
    preprocess header [.sym "DHHookMessageWithAutoRename", .sym "(", .sym "Class", .sym ",",
        .sym "initWithFrame$", .sym ")"] =
      expand header HOOK_MESSAGE_AUTO [[.sym "Class"], [.sym "initWithFrame$"]] ∧
    preprocess header [.sym "HOOK", .sym "(", .sym "Class", .sym ",", .sym "init", .sym ",",
        .sym "id", .sym ")"] =
      expand header HOOK [[.sym "Class"], [.sym "init"], [.sym "id"], []] ∧
    preprocess header [.sym "DHGetClass", .sym "(", .sym "UIToolbarButton", .sym ")"] =
      expand header GET_CLASS [[.sym "UIToolbarButton"]] := by
  decide

/-! ## The claims about `__getsel` -/

/-- C1, as the code has it: for every string S of ASCII letters, digits and `$`
whose length plus one fits a 32-bit `int` and the automatic storage left for
the buffer, the string `__getsel` builds and passes to `sel_getUid` has the
length of S and holds, at every index of S, `:` where S holds `$` and the
character of S otherwise. -/
theorem C1_transform (stack : Nat) (S rest : List Nat)
    (hchars : ∀ c ∈ S, isLetter c ∨ isDigit c ∨ c = dollar)
    (hlen : S.length + 1 < 2147483648) (hstack : S.length + 1 ≤ stack) :
    ∃ out, selectorString stack (S ++ 0 :: rest) = .ok out ∧
      (∀ (SEL : Type) (sel_getUid : List Nat → SEL),
        __getsel stack sel_getUid (S ++ 0 :: rest) = .ok (sel_getUid out)) ∧
      out.length = S.length ∧
      ∀ (i c : Nat), S[i]? = some c → out[i]? = some (if c = dollar then colon else c) := by
  have h0 : 0 ∉ S := fun h => by
    rcases hchars 0 h with h1 | h1 | h1
    · unfold isLetter at h1; omega
    · unfold isDigit at h1; omega
    · exact absurd h1 (by decide)
  have hout := selectorString_object stack ⟨S, h0⟩ rest hlen hstack
  rw [CStr.object] at hout
  refine ⟨_, hout, fun SEL sel_getUid => ?_, by simp, ?_⟩
  · unfold __getsel
    rw [hout]
  · intro i c hi
    simp [List.getElem?_map, hi]

/-- C1 at a concrete string: `a$b1`, followed in memory by one more byte, with
a stack of 8 MiB. -/
theorem C1_transform_witness :
    (∀ c ∈ ascii "a$b1", isLetter c ∨ isDigit c ∨ c = dollar) ∧
    (ascii "a$b1").length + 1 < 2147483648 ∧
    (ascii "a$b1").length + 1 ≤ defaultStack ∧
    ∃ out, selectorString defaultStack (ascii "a$b1" ++ 0 :: [7]) = .ok out ∧
      (∀ (SEL : Type) (sel_getUid : List Nat → SEL),
        __getsel defaultStack sel_getUid (ascii "a$b1" ++ 0 :: [7]) = .ok (sel_getUid out)) ∧
      out.length = (ascii "a$b1").length ∧
      ∀ (i c : Nat), (ascii "a$b1")[i]? = some c →
        out[i]? = some (if c = dollar then colon else c) :=
  ⟨by decide, by decide, by decide,
    C1_transform defaultStack (ascii "a$b1") [7] (by decide) (by decide) (by decide)⟩

/-- C1 fails without the two bounds. On the string of 2147483647 letters `a`,
`strlen(in) + 1` converts to the `int` -2147483648 and `selector[len]` has no
valid size, whatever the stack (here 4 GiB). On the string of 9000000 letters
`a` with a stack of 8 MiB the buffer does not fit in automatic storage. In
neither case is a string built. -/
theorem C1_counterexample_long_string :
    (∀ c ∈ (longString 96).chars, isLetter c ∨ isDigit c ∨ c = dollar) ∧
    (longString 96).chars.length = 2147483647 ∧
    selectorString hugeStack ((longString 96).object []) = .error .vlaSize ∧
    (∀ c ∈ (bigString 96).chars, isLetter c ∨ isDigit c ∨ c = dollar) ∧
    (bigString 96).chars.length = 9000000 ∧
    selectorString defaultStack ((bigString 96).object []) = .error .stackOverflow := by
  refine ⟨fun c hc => ?_, List.length_replicate _ _, ?_, fun c hc => ?_,
    List.length_replicate _ _, ?_⟩
  · rw [List.eq_of_mem_replicate hc]
    decide
  · exact selectorString_vlaSize _ _ (longString _).noNul _ (List.length_replicate _ _)
  · rw [List.eq_of_mem_replicate hc]
    decide
  · have hl : (bigString 96).chars.length = 9000000 := List.length_replicate _ _
    exact selectorString_stackOverflow _ _ (bigString _).noNul _
      (by rw [hl]; decide) (by rw [hl]; decide)

/-- C2, as the code has it: for every string S without `$` whose length plus
one fits a 32-bit `int` and the automatic storage left for the buffer, the
string `__getsel` builds from S is S. -/
theorem C2_no_placeholder (stack : Nat) (S : CStr) (rest : List Nat)
    (hno : dollar ∉ S.chars) (hlen : S.chars.length + 1 < 2147483648)
    (hstack : S.chars.length + 1 ≤ stack) :
    selectorString stack (S.object rest) = .ok S.chars := by
  rw [selectorString_object stack S rest hlen hstack]
  congr 1
  conv_rhs => rw [← List.map_id S.chars]
  apply List.map_congr_left
  intro c hc
  have : c ≠ dollar := fun h => hno (h ▸ hc)
  simp [this]

/-- C2 at the name `init`, with a stack of 8 MiB. -/
theorem C2_no_placeholder_witness :
    dollar ∉ ascii "init" ∧ (ascii "init").length + 1 < 2147483648 ∧
    (ascii "init").length + 1 ≤ defaultStack ∧
    selectorString defaultStack (ascii "init" ++ 0 :: []) = .ok (ascii "init") :=
  ⟨by decide, by decide, by decide,
    C2_no_placeholder defaultStack ⟨ascii "init", by decide⟩ [] (by decide) (by decide)
      (by decide)⟩

/-- C2 fails without the two bounds: the strings of 2147483647 and of 9000000
letters `i` have no `$`; from the first `__getsel` builds no string whatever
the stack (here 4 GiB), from the second none with a stack of 8 MiB. -/
theorem C2_counterexample_long_string :
    dollar ∉ (longString 104).chars ∧
    (longString 104).chars.length = 2147483647 ∧
    selectorString hugeStack ((longString 104).object []) = .error .vlaSize ∧
    dollar ∉ (bigString 104).chars ∧
    (bigString 104).chars.length = 9000000 ∧
    selectorString defaultStack ((bigString 104).object []) = .error .stackOverflow := by
  refine ⟨fun hc => ?_, List.length_replicate _ _, ?_, fun hc => ?_,
    List.length_replicate _ _, ?_⟩
  · exact absurd (List.eq_of_mem_replicate hc) (by decide)
  · exact selectorString_vlaSize _ _ (longString _).noNul _ (List.length_replicate _ _)
  · exact absurd (List.eq_of_mem_replicate hc) (by decide)
  · have hl : (bigString 104).chars.length = 9000000 := List.length_replicate _ _
    exact selectorString_stackOverflow _ _ (bigString _).noNul _
      (by rw [hl]; decide) (by rw [hl]; decide)

/-- C3: on the sample inputs the string `__getsel` builds is the stated one:
`initWithFrame$andOtherThing$` gives `initWithFrame:andOtherThing:` and `$$$`
gives `:::`, whenever the buffers of 29 and of 4 bytes fit the automatic
storage left. -/
theorem C3_samples (stack : Nat) (hstack : 29 ≤ stack) :
    selectorString stack (ascii "initWithFrame$andOtherThing$" ++ [0])
      = .ok (ascii "initWithFrame:andOtherThing:") ∧
    selectorString stack (ascii "$$$" ++ [0]) = .ok (ascii ":::") := by
  have h1 := selectorString_object stack ⟨ascii "initWithFrame$andOtherThing$", by decide⟩ []
    (by decide) (le_trans (by decide) hstack)
  have h2 := selectorString_object stack ⟨ascii "$$$", by decide⟩ []
    (by decide) (le_trans (by decide) hstack)
  rw [CStr.object] at h1 h2
  exact ⟨h1.trans (by decide), h2.trans (by decide)⟩

/-- C3 with a stack of 8 MiB. -/
theorem C3_samples_witness :
    29 ≤ defaultStack ∧
    selectorString defaultStack (ascii "initWithFrame$andOtherThing$" ++ [0])
      = .ok (ascii "initWithFrame:andOtherThing:") ∧
    selectorString defaultStack (ascii "$$$" ++ [0]) = .ok (ascii ":::") :=
  ⟨by decide, C3_samples defaultStack (by decide)⟩

/-- C4: two calls of `__getsel` on objects that hold the same string (whatever
follows the terminator) have the same outcome, with `sel_getUid` a function of
the contents of the string it is given; the handles two such calls return are
equal also when the calls have different amounts of stack left; and when the
length plus one fits a 32-bit `int` and the automatic storage left in both
calls, both return a selector handle. -/
theorem C4_determinism {SEL : Type} (stack stack' : Nat) (sel_getUid : List Nat → SEL)
    (S1 S2 : CStr) (r1 r2 : List Nat) (h : S1.chars = S2.chars) :
    __getsel stack sel_getUid (S1.object r1) = __getsel stack sel_getUid (S2.object r2) ∧
    (∀ h1 h2, __getsel stack sel_getUid (S1.object r1) = .ok h1 →
      __getsel stack' sel_getUid (S2.object r2) = .ok h2 → h1 = h2) ∧
    (S1.chars.length + 1 < 2147483648 → S1.chars.length + 1 ≤ stack →
      S1.chars.length + 1 ≤ stack' →
      ∃ handle, __getsel stack sel_getUid (S1.object r1) = .ok handle ∧
        __getsel stack' sel_getUid (S2.object r2) = .ok handle) := by
  have hobj : S2.object r2 = S1.object r2 := by simp [CStr.object, h]
  have hsame : selectorString stack (S1.object r1) = selectorString stack (S2.object r2) := by
    rw [hobj]; exact selectorString_rest stack S1 r1 r2
  refine ⟨by unfold __getsel; rw [hsame], fun h1 h2 e1 e2 => ?_, fun hlen hst hst' => ?_⟩
  · obtain ⟨s1, hs1, rfl⟩ := getsel_ok stack sel_getUid _ h1 e1
    obtain ⟨s2, hs2, rfl⟩ := getsel_ok stack' sel_getUid _ h2 e2
    rw [hobj] at hs2
    rw [((selectorString_ok_iff stack S1 r1 s1).mp hs1).2,
      ((selectorString_ok_iff stack' S1 r2 s2).mp hs2).2]
  · refine ⟨sel_getUid (S1.chars.map (fun c => if c = dollar then colon else c)), ?_, ?_⟩
    · unfold __getsel; rw [selectorString_object stack S1 r1 hlen hst]
    · unfold __getsel; rw [hobj, selectorString_object stack' S1 r2 hlen hst']

/-- C4 at the name `init`, held by two objects that differ after the NUL, with
the string passed to `sel_getUid` as the handle and stacks of 8 MiB and of
4 GiB. -/
theorem C4_determinism_witness :
    __getsel defaultStack (fun s => s) (ascii "init" ++ 0 :: [])
      = __getsel defaultStack (fun s => s) (ascii "init" ++ 0 :: [1, 2]) ∧
    ∃ handle, __getsel defaultStack (fun s => s) (ascii "init" ++ 0 :: []) = .ok handle ∧
      __getsel hugeStack (fun s => s) (ascii "init" ++ 0 :: [1, 2]) = .ok handle :=
  have h := C4_determinism defaultStack hugeStack (fun s => s) ⟨ascii "init", by decide⟩
    ⟨ascii "init", by decide⟩ [] [1, 2] rfl
  ⟨h.1, h.2.2 (by decide) (by decide) (by decide)⟩

/-- C8, as the code has it: for every NUL-terminated input made only of `$`,
ASCII letters, digits and `_` whose length plus one fits a 32-bit `int` and
the automatic storage left for the buffer, `__getsel` reaches `sel_getUid`:
`strlen` returns the length, `len` is the length plus one, the loop is left
after exactly `len` iterations, every read `in[i]` and write `selector[i]` has
`i < len` (inside the input with its terminator and inside the buffer of `len`
bytes; indices are natural numbers), the buffer has its NUL at index
`strlen(in)` and none before, and `sel_getUid` reads a string of that length
from it. -/
theorem C8_total (stack : Nat) (S rest : List Nat)
    (hchars : ∀ c ∈ S, c = dollar ∨ isLetter c ∨ isDigit c ∨ c = 95)
    (hlen : S.length + 1 < 2147483648) (hstack : S.length + 1 ≤ stack) :
    ∃ f, getselFrame stack (S ++ 0 :: rest) = .ok f ∧
      strlen (S ++ 0 :: rest) = .ok S.length ∧
      f.len = (S.length : Int) + 1 ∧
      (f.iterations : Int) = f.len ∧
      ¬ ((f.i : Int) < f.len) ∧
      f.selector.length = S.length + 1 ∧
      (∀ i ∈ f.reads, (i : Int) < f.len ∧ i < (S ++ [0]).length) ∧
      (∀ i ∈ f.writes, (i : Int) < f.len ∧ i < f.selector.length) ∧
      f.selector[S.length]? = some (some 0) ∧
      (∀ j, j < S.length → ∃ c, f.selector[j]? = some (some c) ∧ c ≠ 0) ∧
      ∃ s, readCString f.selector = .ok s ∧ s.length = S.length := by
  have h0 : 0 ∉ S := fun h => by
    rcases hchars 0 h with h1 | h1 | h1 | h1
    · exact absurd h1 (by decide)
    · unfold isLetter at h1; omega
    · unfold isDigit at h1; omega
    · exact absurd h1 (by decide)
  have hsel := frameAt_selector_full ⟨S, h0⟩ rest
  refine ⟨_, getselFrame_object stack ⟨S, h0⟩ rest hlen hstack, strlen_append_nul S rest h0,
    ?_, ?_, ?_, ?_, ?_, ?_, ?_, ?_, ?_⟩
  · simp [frameAt]
  · simp [frameAt]
  · simp [frameAt]
  · rw [hsel]; simp
  · intro i hi
    have : i < S.length + 1 := by simpa [frameAt] using hi
    simp only [frameAt, List.length_append, List.length_singleton]
    exact ⟨by exact_mod_cast this, this⟩
  · intro i hi
    have : i < S.length + 1 := by simpa [frameAt] using hi
    rw [hsel]
    simp only [frameAt, List.length_append, List.length_map, List.length_singleton]
    exact ⟨by exact_mod_cast this, this⟩
  · rw [hsel]
    simp
  · intro j hj
    rw [hsel]
    refine ⟨if S[j] = dollar then colon else S[j], ?_, ?_⟩
    · rw [List.getElem?_append_left (by simpa using hj)]
      simp [List.getElem?_map, List.getElem?_eq_getElem hj]
    · have hne : S[j] ≠ 0 := fun h => h0 (h ▸ List.getElem_mem hj)
      split
      · decide
      · exact hne
  · rw [hsel]
    exact ⟨_, readCString_terminated S [] h0, by simp⟩

/-- C8 at the name `a_b$`, followed in memory by two more bytes, with a stack
of 8 MiB. -/
theorem C8_total_witness :
    ∃ f, getselFrame defaultStack (ascii "a_b$" ++ 0 :: [9, 9]) = .ok f ∧
      strlen (ascii "a_b$" ++ 0 :: [9, 9]) = .ok (ascii "a_b$").length ∧
      f.len = ((ascii "a_b$").length : Int) + 1 ∧
      (f.iterations : Int) = f.len ∧
      ¬ ((f.i : Int) < f.len) ∧
      f.selector.length = (ascii "a_b$").length + 1 ∧
      (∀ i ∈ f.reads, (i : Int) < f.len ∧ i < (ascii "a_b$" ++ [0]).length) ∧
      (∀ i ∈ f.writes, (i : Int) < f.len ∧ i < f.selector.length) ∧
      f.selector[(ascii "a_b$").length]? = some (some 0) ∧
      (∀ j, j < (ascii "a_b$").length → ∃ c, f.selector[j]? = some (some c) ∧ c ≠ 0) ∧
      ∃ s, readCString f.selector = .ok s ∧ s.length = (ascii "a_b$").length :=
  C8_total defaultStack (ascii "a_b$") [9, 9] (by decide) (by decide) (by decide)

/-- C8 fails with the 32-bit bound alone: the string of 9000000 letters `a`
has a length plus one that fits a 32-bit `int`, and with a stack of 8 MiB the
buffer `selector[len]` does not fit in automatic storage, so the loop is never
finished and `sel_getUid` is not reached. -/
theorem C8_counterexample_stack :
    (∀ c ∈ (bigString 96).chars, c = dollar ∨ isLetter c ∨ isDigit c ∨ c = 95) ∧
    (bigString 96).chars.length + 1 < 2147483648 ∧
    getselFrame defaultStack ((bigString 96).object [7]) = .error .stackOverflow := by
  have hl : (bigString 96).chars.length = 9000000 := List.length_replicate _ _
  refine ⟨fun c hc => ?_, by rw [hl]; decide, ?_⟩
  · rw [List.eq_of_mem_replicate hc]
    decide
  · rw [getselFrame_of_strlen defaultStack ((bigString 96).object [7]) 9000000 9000001
      (by rw [← hl]; exact strlen_append_nul _ _ (bigString 96).noNul) (by decide)]
    rw [if_neg (by decide), if_pos (by decide)]

/-- C9: the transform of `__getsel` is injective on names without `:`: when
the strings built from two such names are equal, the names are equal. -/
theorem C9_injective (stack1 stack2 : Nat) (S1 S2 : CStr) (r1 r2 : List Nat) (out : List Nat)
    (h1 : colon ∉ S1.chars) (h2 : colon ∉ S2.chars)
    (e1 : selectorString stack1 (S1.object r1) = .ok out)
    (e2 : selectorString stack2 (S2.object r2) = .ok out) :
    S1.chars = S2.chars := by
  obtain ⟨_, ho1⟩ := (selectorString_ok_iff stack1 S1 r1 out).mp e1
  obtain ⟨_, ho2⟩ := (selectorString_ok_iff stack2 S2 r2 out).mp e2
  exact map_dollar_injective _ _ h1 h2 (ho1.symm.trans ho2)

/-- C9 at the name `a$b`, built into `a:b` from two objects, with a stack of
8 MiB. -/
theorem C9_injective_witness :
    colon ∉ ascii "a$b" ∧
    selectorString defaultStack (ascii "a$b" ++ 0 :: []) = .ok (ascii "a:b") ∧
    selectorString defaultStack (ascii "a$b" ++ 0 :: [5]) = .ok (ascii "a:b") ∧
    ascii "a$b" = ascii "a$b" :=
  ⟨by decide, by decide, by decide,
    C9_injective defaultStack defaultStack ⟨ascii "a$b", by decide⟩ ⟨ascii "a$b", by decide⟩
      [] [5] (ascii "a:b") (by decide) (by decide) (by decide) (by decide)⟩

/-! ### The install calls -/

theorem installCall_AUTO {SEL : Type} (env : List Define) (stack : Nat)
    (sel_getUid : List Nat → SEL) (c n : String) :
    (expand env HOOK_MESSAGE_AUTO [[.sym c], [.sym n]]).bind (installCall stack sel_getUid) =
      some (match selectorString stack (ascii n ++ [0]) with
        | .ok s => .ok { dest := .sym ("_" ++ c ++ "$" ++ n), cls := .sym ("$" ++ c),
                         sel := sel_getUid s, repl := .sym ("$" ++ c ++ "$" ++ n) }
        | .error e => .error e) := by
  rw [expand_HOOK_MESSAGE_AUTO, Option.some_bind, installCall, parseInstall_getsel,
    Option.map_some']
  show some (match __getsel stack sel_getUid (ascii n ++ [0]) with
    | .ok h => Except.ok _
    | .error e => Except.error e) = _
  unfold __getsel
  cases selectorString stack (ascii n ++ [0]) <;> rfl

theorem installCall_REPLACEMENT {SEL : Type} (env : List Define) (stack : Nat)
    (sel_getUid : List Nat → SEL) (c : String) (sel : List Tok) (n : String)
    (sel' : List PTok) (hsel : prescan env (sel.map PTok.fresh) = some sel') :
    (expand env HOOK_MESSAGE_REPLACEMENT [[.sym c], sel, [.sym n]]).bind
        (installCall stack sel_getUid) =
      some (.ok { dest := .sym ("_" ++ c ++ "$" ++ n), cls := .sym ("$" ++ c),
                  sel := sel_getUid (ascii (spell (sel'.map PTok.tok))),
                  repl := .sym ("$" ++ c ++ "$" ++ n) }) := by
  rw [expand_HOOK_MESSAGE_REPLACEMENT env c sel n sel' hsel, Option.some_bind, installCall,
    parseInstall_selector]
  rfl

/-! ## The claims about the macros -/

/-- C7, as the code has it: for class names without `$`, each generated name
belongs to one pair of class and method name: two uses of `HOOK` that declare
the same variable `_c$n`, or the same function `$c$n`, have the same class and
the same method name. -/
theorem C7_binding_unique (u1 u2 : HookUse) (h1 : u1.WellFormed) (h2 : u2.WellFormed)
    (hd1 : '$' ∉ u1.cls.data) (hd2 : '$' ∉ u2.cls.data)
    (heq : (u1.expansion.bind parseHook).map HookDecl.orig
        = (u2.expansion.bind parseHook).map HookDecl.orig ∨
      (u1.expansion.bind parseHook).map HookDecl.repl
        = (u2.expansion.bind parseHook).map HookDecl.repl) :
    u1.cls = u2.cls ∧ u1.name = u2.name := by
  rw [parseHook_expansion u1 h1, parseHook_expansion u2 h2] at heq
  simp only [Option.map_some', Option.some.injEq, Tok.sym.injEq] at heq
  rcases heq with h | h
  · exact paste_names_injective "_" _ _ _ _ hd1 hd2 h
  · exact paste_names_injective "$" _ _ _ _ hd1 hd2 h

/-- C7 at two uses of `HOOK` for the same method of `Class`, with different
return types and arguments. -/
theorem C7_binding_unique_witness :
    sampleHook.WellFormed ∧ sampleHookVoid.WellFormed ∧
    '$' ∉ sampleHook.cls.data ∧ '$' ∉ sampleHookVoid.cls.data ∧
    (sampleHook.expansion.bind parseHook).map HookDecl.orig
      = (sampleHookVoid.expansion.bind parseHook).map HookDecl.orig ∧
    sampleHook.cls = sampleHookVoid.cls ∧ sampleHook.name = sampleHookVoid.name :=
  ⟨by decide, by decide, by decide, by decide, by decide,
    C7_binding_unique sampleHook sampleHookVoid (by decide) (by decide) (by decide) (by decide)
      (Or.inl (by decide))⟩

/-- C7 fails when a class name may hold `$`: `HOOK(A, b$c$, ...)` and
`HOOK(A$b, c$, ...)` declare the same variable `_A$b$c$` and the same function
`$A$b$c$`, for different classes and methods. -/
theorem C7_counterexample_dollar_in_class :
    hookOfA.WellFormed ∧ hookOfAb.WellFormed ∧
    hookOfA.expansion.bind parseHook
      = some { orig := .sym "_A$b$c$", repl := .sym "$A$b$c$" } ∧
    hookOfAb.expansion.bind parseHook
      = some { orig := .sym "_A$b$c$", repl := .sym "$A$b$c$" } ∧
    hookOfA.cls ≠ hookOfAb.cls ∧ hookOfA.name ≠ hookOfAb.name := by
  decide

/-- C10 against the code: of the six aliases of the header, five expand to the
name of one of `GET_CLASS`, `HOOK_MESSAGE`, `HOOK_MESSAGE_AUTO`,
`HOOK_MESSAGE_REPLACEMENT`; `HOOK_MESSAGE_ARGS` expands to
`HOOK_MESSAGE_WITH_SINGLE_ARG`, which the header does not define, so that the
use `HOOK_MESSAGE_ARGS(Class, init)` is left as a call of that name. -/
theorem C10_dangling_alias :
    aliases = [HOOK_MESSAGE_ARGS, HOOK_MESSAGE_EX, HOOK_MESSAGE_F, DHGetClass,
      DHHookMessageWithReplacement, DHHookMessageWithAutoRename] ∧
    aliases.filter (fun d => decide (¬ resolves d)) = [HOOK_MESSAGE_ARGS] ∧
    expand header HOOK_MESSAGE_ARGS [] = some [.sym "HOOK_MESSAGE_WITH_SINGLE_ARG"] ∧
    lookup header "HOOK_MESSAGE_WITH_SINGLE_ARG" = none ∧
    preprocess header
        [.sym "HOOK_MESSAGE_ARGS", .sym "(", .sym "Class", .sym ",", .sym "init", .sym ")"] =
      some [.sym "HOOK_MESSAGE_WITH_SINGLE_ARG", .sym "(", .sym "Class", .sym ",",
        .sym "init", .sym ")"] := by
  decide

end DHHookCommon
